import Mathlib

/-!
Verification development for the `eks-alb-cloudfront-controller` repository
(`src/config/controller.py`).

The controller is shallowly embedded as follows.

* A template document (one YAML document of the multi-document template file)
  becomes the structure `Doc`: the `kind` field and the `metadata.name` /
  `metadata.namespace` entries are `Option String` (a missing dictionary key is
  `none`); the kind-specific body is `DocSpec`, which distinguishes a document
  that has the full `spec.distributionConfig` shape the code patches
  (`DocSpec.dist`) from any other body (`DocSpec.other`); unmodelled content is
  carried opaquely in `rest` fields.
* The Kubernetes custom-object API and the ingress-patching API become explicit
  state passing over `S` (the live resource store, the ingress DNS-target
  value, a call counter, the ordered trace of API calls, and the log).
  An `Env` is a fault schedule: `faults i = some st` injects an
  `ApiException` with HTTP status `st` into the `i`-th API call, `none` lets
  the call behave normally (get: found / 404 by store membership; create:
  insert / 409 conflict; list: snapshot of names; delete: remove / 404).
* Python functions become Lean functions of the same name; an exception that
  the Python code would not catch (e.g. `KeyError` on missing metadata) is the
  `Option String` component of the result of `create_or_update_crd`.
-/

namespace CFCtrl

/-- One origin entry of `spec.distributionConfig.origins.items`. -/
structure Origin where
  id : String
  domainName : String
  rest : String
deriving DecidableEq

/-- The `spec.distributionConfig` block of a Distribution document. -/
structure DistributionConfig where
  comment : String
  origins : List Origin
  targetOriginId : String
  rest : String
deriving DecidableEq

/-- Body of a template document: either the full distribution shape the code
patches, or an opaque other body. -/
inductive DocSpec where
  | dist (cfg : DistributionConfig)
  | other (rest : String)
deriving DecidableEq

/-- One parsed YAML document of the template. -/
structure Doc where
  kind : Option String
  metaName : Option String
  metaNs : Option String
  spec : DocSpec
deriving DecidableEq

/-- The fixed kind-to-plural mapping `PLURAL_MAP` of the source. -/
def PLURAL_MAP : List (String × String) :=
  [("Distribution", "distributions"),
   ("Function", "functions"),
   ("CachePolicy", "cachepolicies"),
   ("OriginRequestPolicy", "originrequestpolicies"),
   ("KeyGroup", "keygroups")]

/-- Embedding of `PLURAL_MAP.get(kind)` where `kind` is `doc.get("kind")` (may be `None`). -/
def pluralGet (k : Option String) : Option String :=
  k.bind (fun s => PLURAL_MAP.lookup s)

/-- The plural collection names of the Kind Registry. -/
def registeredPlurals : List String := PLURAL_MAP.map Prod.snd

/-- The body of the per-document loop of `load_and_patch_template`: returns
`.ok none` when the document is skipped (kind not in `PLURAL_MAP`), `.ok
(some d)` with the patched document otherwise, and `.error` when the Python
code would raise (missing `spec.distributionConfig` shape / empty origin
list on a Distribution document). -/
def patchDoc (ns ingressName albDns : String) (doc : Doc) : Except String (Option Doc) :=
  let originId := ns ++ "-" ++ ingressName ++ "-origin"
  match pluralGet doc.kind with
  | none => .ok none
  | some _ =>
    let baseName := doc.metaName.getD "cf-object"
    let doc1 : Doc :=
      { doc with metaNs := some ns, metaName := some (ns ++ "-" ++ ingressName ++ "-" ++ baseName) }
    if doc.kind = some "Distribution" then
      match doc1.spec with
      | .dist cfg =>
        match cfg.origins with
        | [] => .error "IndexError"
        | o :: os =>
          let o1 : Origin := { o with id := originId, domainName := albDns }
          let cfg1 : DistributionConfig :=
            { comment := "CloudFront for ALB " ++ ns ++ "-" ++ ingressName,
              origins := o1 :: os,
              targetOriginId := originId,
              rest := cfg.rest }
          .ok (some { doc1 with spec := .dist cfg1 })
      | .other _ => .error "KeyError"
    else .ok (some doc1)

/-- Embedding of `load_and_patch_template`, as a function of the parsed template documents
(the template file itself is configuration outside the repository). -/
def load_and_patch_template (ns ingressName albDns : String) :
    List Doc → Except String (List Doc)
  | [] => .ok []
  | d :: ds =>
    match patchDoc ns ingressName albDns d with
    | .error e => .error e
    | .ok r =>
      match load_and_patch_template ns ingressName albDns ds with
      | .error e => .error e
      | .ok rest =>
        match r with
        | none => .ok rest
        | some d1 => .ok (d1 :: rest)

/-- Python `str.lower()` (character-wise lowercasing). -/
def strLower (s : String) : String := ⟨s.data.map Char.toLower⟩

/-- Python `str.startswith(pre)`. -/
def strStartsWith (s pre : String) : Bool := pre.data.isPrefixOf s.data

/-- The enablement test of `reconcile_ingress`:
`annotations.get("cloudfront.aws.k8s.io/enabled", "false").lower() == "true"`. -/
def cfEnabledOf (anns : List (String × String)) : Bool :=
  strLower ((anns.lookup "cloudfront.aws.k8s.io/enabled").getD "false") == "true"

/-- A custom resource key in the Resource Store: (plural, namespace, name). -/
abbrev Key := String × String × String

/-- Observable external state: the Resource Store contents and the ingress
`external-dns.alpha.kubernetes.io/target` value (of the one reconciled
ingress). -/
structure World where
  store : List Key
  dnsTarget : Option String
deriving DecidableEq

/-- One API call, as recorded in the trace. -/
inductive ApiOp where
  | get (plural ns name : String)
  | create (plural ns name : String)
  | listOp (plural ns : String)
  | delete (plural ns name : String)
  | patchIng (ns name : String) (value : Option String)
  | readIng (ns name : String)
deriving DecidableEq

/-- A log line. -/
inductive LogEvent where
  | info (msg : String)
  | error (msg : String)
deriving DecidableEq

/-- Execution state threaded through the embedded controller code. -/
structure S where
  world : World
  ctr : Nat
  calls : List ApiOp
  log : List LogEvent
deriving DecidableEq

/-- A fault schedule: `faults i = some st` injects an ApiException with HTTP
status `st` into the `i`-th API call of the run. -/
structure Env where
  faults : Nat → Option Nat

/-- Record one API call: bump the counter and append to the trace. -/
def tick (op : ApiOp) (s : S) : S :=
  { s with ctr := s.ctr + 1, calls := s.calls ++ [op] }

/-- Embedding of `api.get_namespaced_custom_object`: found, or ApiException (404 when
absent, or an injected fault). -/
def apiGet (env : Env) (p n m : String) (s : S) : Except Nat Unit × S :=
  ((match env.faults s.ctr with
    | some st => .error st
    | none => if (p, n, m) ∈ s.world.store then .ok () else .error 404),
   tick (.get p n m) s)

/-- Embedding of `api.create_namespaced_custom_object`: inserts, 409 on an existing key,
or an injected fault. -/
def apiCreate (env : Env) (p n m : String) (s : S) : Except Nat Unit × S :=
  let s1 := tick (.create p n m) s
  match env.faults s.ctr with
  | some st => (.error st, s1)
  | none =>
    if (p, n, m) ∈ s.world.store then (.error 409, s1)
    else (.ok (), { s1 with world := { s1.world with store := s1.world.store ++ [(p, n, m)] } })

/-- Embedding of `api.list_namespaced_custom_object`: the names of the stored objects of
this plural in this namespace, or an injected fault. -/
def apiList (env : Env) (p n : String) (s : S) : Except Nat (List String) × S :=
  ((match env.faults s.ctr with
    | some st => .error st
    | none =>
      .ok (s.world.store.filterMap
        (fun k => if k.1 = p ∧ k.2.1 = n then some k.2.2 else none))),
   tick (.listOp p n) s)

/-- Embedding of `api.delete_namespaced_custom_object`: removes the key, 404 when absent,
or an injected fault. -/
def apiDelete (env : Env) (p n m : String) (s : S) : Except Nat Unit × S :=
  let s1 := tick (.delete p n m) s
  match env.faults s.ctr with
  | some st => (.error st, s1)
  | none =>
    if (p, n, m) ∈ s.world.store then
      (.ok (), { s1 with world := { s1.world with
        store := s1.world.store.filter (fun k => decide (k ≠ (p, n, m))) } })
    else (.error 404, s1)

/-- Embedding of `networking_api.patch_namespaced_ingress` on the annotation body: sets the
DNS-target value (`none` clears it), or an injected fault. -/
def patchNamespacedIngress (env : Env) (ingressName ns : String) (v : Option String) (s : S) :
    Except Nat Unit × S :=
  let s1 := tick (.patchIng ns ingressName v) s
  match env.faults s.ctr with
  | some st => (.error st, s1)
  | none => (.ok (), { s1 with world := { s1.world with dnsTarget := v } })

/-- Python `f"{kind}"` when `kind` may be `None`. -/
def kindStr (doc : Doc) : String := doc.kind.getD "None"

/-- Embedding of `create_or_update_crd`. The first component is an exception the Python
function would not catch (`KeyError` on missing metadata, extracted before
the `if not plural` return); ApiExceptions are handled inside. -/
def create_or_update_crd (env : Env) (doc : Doc) (s : S) : Option String × S :=
  match doc.metaName, doc.metaNs with
  | some name, some ns =>
    (match pluralGet doc.kind with
     | none => (none, s)
     | some plural =>
       match apiGet env plural ns name s with
       | (.ok _, s1) =>
         (none, { s1 with log := s1.log ++
           [.info (kindStr doc ++ " " ++ name ++ " already exists")] })
       | (.error st, s1) =>
         if st ≠ 404 then
           (none, { s1 with log := s1.log ++ [.error ("Error checking " ++ kindStr doc)] })
         else
           match apiCreate env plural ns name s1 with
           | (.ok _, s2) =>
             (none, { s2 with log := s2.log ++
               [.info ("Created " ++ kindStr doc ++ " " ++ name)] })
           | (.error _, s2) =>
             (none, { s2 with log := s2.log ++
               [.error ("Failed to create " ++ kindStr doc ++ " " ++ name)] }))
  | _, _ => (some "KeyError", s)

/-- The per-resource pass `for doc in docs: create_or_update_crd(doc, logger)`
(present in `reconcile_ingress` as a disabled call site). An uncaught
exception from one document aborts the loop; handled ApiExceptions do not. -/
def createAll (env : Env) (docs : List Doc) (s : S) : Option String × S :=
  match docs with
  | [] => (none, s)
  | d :: ds =>
    match create_or_update_crd env d s with
    | (some e, s1) => (some e, s1)
    | (none, s1) => createAll env ds s1

/-- The inner `for item in objs.get('items', [])` loop of
`remove_crds_and_patch` for one kind: delete every listed name with the
prefix; a delete ApiException is caught by the per-kind `except`, which logs
once and abandons the remaining items of this kind. -/
def delete_loop (env : Env) (kind plural ns pfx : String) : List String → S → S
  | [], s => s
  | nm :: nms, s =>
    if strStartsWith nm pfx then
      match apiDelete env plural ns nm s with
      | (.ok _, s1) =>
        delete_loop env kind plural ns pfx nms
          { s1 with log := s1.log ++ [.info ("Deleted " ++ kind ++ " " ++ nm)] }
      | (.error _, s1) =>
        { s1 with log := s1.log ++ [.error ("Error deleting " ++ kind ++ " objects")] }
    else delete_loop env kind plural ns pfx nms s

/-- One iteration of the `for kind, plural in PLURAL_MAP.items()` loop of
`remove_crds_and_patch`: list this kind's objects and delete the
prefix-matching ones, with one `try/except` around the whole iteration. -/
def remove_kind (env : Env) (ns ingressName kind plural : String) (s : S) : S :=
  let pfx := ns ++ "-" ++ ingressName ++ "-"
  match apiList env plural ns s with
  | (.ok names, s1) => delete_loop env kind plural ns pfx names s1
  | (.error _, s1) =>
    { s1 with log := s1.log ++ [.error ("Error deleting " ++ kind ++ " objects")] }

/-- Embedding of `remove_crds_and_patch`: the per-kind delete loop over `PLURAL_MAP`,
followed by clearing the external-dns target annotation (its own
`try/except`). -/
def remove_crds_and_patch (env : Env) (ns ingressName : String) (s : S) : S :=
  let s1 := PLURAL_MAP.foldl (fun acc kp => remove_kind env ns ingressName kp.1 kp.2 acc) s
  match patchNamespacedIngress env ingressName ns none s1 with
  | (.ok _, s2) =>
    { s2 with log := s2.log ++
      [.info ("Removed external-dns.target from Ingress " ++ ingressName)] }
  | (.error _, s2) =>
    { s2 with log := s2.log ++ [.error "Failed to remove external-dns target"] }

/-- Embedding of `reconcile_ingress`, one timer tick for one ingress. `anns` is the
ingress annotation map, `lb` the backend hostname read off the ingress
load-balancer status (`none` when unresolved: the Python subscript raises and
the enabled-path `except` logs the failure), `tmpl` the parsed template.
The enabled path materializes the documents but the `create_or_update_crd`
loop and the `patch_ingress` call are commented out in the source, so the
materialized documents are discarded. -/
def reconcile_ingress (env : Env) (anns : List (String × String)) (lb : Option String)
    (tmpl : List Doc) (ns name : String) (s : S) : S :=
  let s0 := { s with log := s.log ++
    [.info ("Processing Ingress: " ++ name ++ " in namespace: " ++ ns),
     .info "Annotations: snapshot"] }
  if cfEnabledOf anns then
    let s1 := tick (.readIng ns name) s0
    match lb with
    | none =>
      { s1 with log := s1.log ++
        [.error ("Failed to retrieve LoadBalancer hostname for Ingress " ++ name)] }
    | some albDns =>
      let s2 := { s1 with log := s1.log ++
        [.info ("Retrieved LoadBalancer hostname: " ++ albDns)] }
      match load_and_patch_template ns name albDns tmpl with
      | .error _ =>
        { s2 with log := s2.log ++
          [.error ("Failed to retrieve LoadBalancer hostname for Ingress " ++ name)] }
      | .ok _ => s2
  else
    remove_crds_and_patch env ns name s0

/-- Store calls are the custom-object CRUD operations. -/
def isStoreCall : ApiOp → Bool
  | .get _ _ _ => true
  | .create _ _ _ => true
  | .listOp _ _ => true
  | .delete _ _ _ => true
  | _ => false

/-- Annotation writes are ingress patches. -/
def isAnnWrite : ApiOp → Bool
  | .patchIng _ _ _ => true
  | _ => false

/-- Create operations. -/
def isCreateOp : ApiOp → Bool
  | .create _ _ _ => true
  | _ => false

/-! ## Concrete inputs used by witnesses and counterexamples -/

/-- A concrete one-origin `spec.distributionConfig` body. -/
def cfgC : DistributionConfig :=
  { comment := "", targetOriginId := "", rest := "",
    origins := [{ id := "", domainName := "", rest := "" }] }

/-- A concrete Distribution template document. -/
def docC : Doc :=
  { kind := some "Distribution", metaName := some "distribution", metaNs := none,
    spec := .dist cfgC }

/-- The `spec.distributionConfig` body of `docC` materialized for
(ns, app, alb.example.com). -/
def cfgCout : DistributionConfig :=
  { comment := "CloudFront for ALB ns-app",
    origins := [{ id := "ns-app-origin", domainName := "alb.example.com", rest := "" }],
    targetOriginId := "ns-app-origin", rest := "" }

/-- The materialization of `docC` for (ns, app, alb.example.com). -/
def docCout : Doc :=
  { kind := some "Distribution", metaName := some "ns-app-distribution", metaNs := some "ns",
    spec := .dist cfgCout }

/-- A document of an unrecognized kind. -/
def docUnknown : Doc :=
  { kind := some "Unknown", metaName := some "x", metaNs := some "ns",
    spec := .other "body" }

/-- The all-clear fault schedule: no injected faults. -/
def envNone : Env := { faults := fun _ => none }

/-- The empty execution state. -/
def sEmpty : S := { world := { store := [], dnsTarget := none }, ctr := 0, calls := [], log := [] }

/-- An annotation map enabling CloudFront. -/
def annsTrue : List (String × String) := [("cloudfront.aws.k8s.io/enabled", "true")]

/-- A one-document template. -/
def tmplC : List Doc := [docC]

/-- A fault schedule injecting an ApiException with status 500 into the
second API call (call index 1) of a run. -/
def envFault1 : Env := { faults := fun i => if i = 1 then some 500 else none }

/-- A store holding two Distribution resources of the `ns`/`app` endpoint. -/
def sTwoDist : S :=
  { world := { store := [("distributions", "ns", "ns-app-a"), ("distributions", "ns", "ns-app-b")],
               dnsTarget := some "cf.example.com" },
    ctr := 0, calls := [], log := [] }

/-- A fault schedule that never injects a fault. -/
def noFaults (env : Env) : Prop := ∀ i, env.faults i = none

/-- Deletion condition while a name list is still being processed: the key is
of this plural, in this namespace, its name is listed and carries the
prefix. -/
def delCond (plural ns pfx : String) (names : List String) (k : Key) : Bool :=
  decide (k.1 = plural) && decide (k.2.1 = ns) && decide (k.2.2 ∈ names) &&
    strStartsWith k.2.2 pfx

/-- Per-kind teardown condition: the key is of this plural, in this
namespace, and its name carries the prefix. -/
def kindCond (plural ns pfx : String) (k : Key) : Bool :=
  decide (k.1 = plural) && decide (k.2.1 = ns) && strStartsWith k.2.2 pfx

/-- Whole-registry teardown condition: the key's plural is one of the given
collections, it lives in this namespace, and its name carries the prefix. -/
def teardownCond (ns pfx : String) (plurals : List String) (k : Key) : Bool :=
  decide (k.1 ∈ plurals) && decide (k.2.1 = ns) && strStartsWith k.2.2 pfx

/-- The Resource Store key a document addresses — defined exactly when its
kind is registered and its metadata is present (the data
`create_or_update_crd` extracts before calling the store). -/
def docKey (d : Doc) : Option Key :=
  match pluralGet d.kind, d.metaNs, d.metaName with
  | some p, some n, some m => some (p, n, m)
  | _, _, _ => none

/-- A store with resources of the `ns`/`app` endpoint, of a foreign prefix,
of a foreign namespace, and of an unregistered collection. -/
def sTeardown : S :=
  { world := { store := [("distributions", "ns", "ns-app-d"), ("functions", "ns", "ns-app-f"),
                         ("distributions", "ns", "ns-other-d"), ("distributions", "other", "ns-app-x"),
                         ("widgets", "ns", "ns-app-w")],
               dnsTarget := some "cf.example.com" },
    ctr := 0, calls := [], log := [] }

/-! ## Claim theorems: the annotation flag and the materializer -/

/-- C5: `DesiredState` is Enabled iff the enablement annotation key is present
and its value, lowercased, is exactly `"true"`; any other value, and absence
of the key, yields Disabled. -/
theorem c5_enabled_iff (anns : List (String × String)) :
    cfEnabledOf anns = true ↔
      ∃ v, anns.lookup "cloudfront.aws.k8s.io/enabled" = some v ∧ strLower v = "true" := by
  unfold cfEnabledOf
  cases h : anns.lookup "cloudfront.aws.k8s.io/enabled" with
  | none => simp [h]; decide
  | some v => simp [h]

/-- C3: every template document with a registered kind is materialized with
`metadata.name = "{namespace}-{endpointName}-{originalName}"`, the original
name defaulting to the fixed placeholder `"cf-object"` when the template
document has no name. -/
theorem c3_naming (ns en alb : String) (doc d1 : Doc)
    (h : patchDoc ns en alb doc = .ok (some d1)) :
    d1.metaName = some (ns ++ "-" ++ en ++ "-" ++ doc.metaName.getD "cf-object") := by
  obtain ⟨k, mn, mns, sp⟩ := doc
  unfold patchDoc at h
  dsimp only at h
  split at h
  · exact absurd h (by simp)
  · split at h
    · cases sp with
      | dist cfg =>
        dsimp only at h
        cases hO : cfg.origins with
        | nil => rw [hO] at h; exact absurd h (by simp)
        | cons o os =>
          rw [hO] at h
          simp only [Except.ok.injEq, Option.some.injEq] at h
          subst h; rfl
      | other r => exact absurd h (by simp)
    · simp only [Except.ok.injEq, Option.some.injEq] at h
      subst h; rfl

/-- C3 witness: for namespace "ns", endpoint "app", template base name
"distribution" the materialized name is exactly "ns-app-distribution". -/
theorem c3_naming_witness :
    patchDoc "ns" "app" "alb.example.com" docC = .ok (some docCout) ∧
    docCout.metaName = some ("ns" ++ "-" ++ "app" ++ "-" ++ docC.metaName.getD "cf-object") ∧
    docCout.metaName = some "ns-app-distribution" :=
  ⟨rfl, c3_naming "ns" "app" "alb.example.com" docC docCout rfl, rfl⟩

/-- C4: in the materialized Distribution document, the first origin's id and
the default cache behavior's targetOriginId are both the derived origin id
`"{namespace}-{endpointName}-origin"`, and the first origin's domainName is
the supplied backend hostname. -/
theorem c4_cross_reference (ns en alb : String) (doc d1 : Doc)
    (hk : doc.kind = some "Distribution")
    (h : patchDoc ns en alb doc = .ok (some d1)) :
    ∃ cfg, d1.spec = DocSpec.dist cfg ∧
      cfg.origins.head?.map Origin.id = some (ns ++ "-" ++ en ++ "-origin") ∧
      cfg.origins.head?.map Origin.domainName = some alb ∧
      cfg.targetOriginId = ns ++ "-" ++ en ++ "-origin" := by
  obtain ⟨k, mn, mns, sp⟩ := doc
  simp only at hk
  subst hk
  unfold patchDoc at h
  dsimp only at h
  split at h
  · exact absurd h (by simp)
  · rw [if_pos rfl] at h
    cases sp with
    | dist cfg =>
      dsimp only at h
      cases hO : cfg.origins with
      | nil => rw [hO] at h; exact absurd h (by simp)
      | cons o os =>
        rw [hO] at h
        simp only [Except.ok.injEq, Option.some.injEq] at h
        subst h
        exact ⟨_, rfl, rfl, rfl, rfl⟩
    | other r => exact absurd h (by simp)

/-- C4 witness: for (ns, app, alb.example.com), both cross-reference fields
are exactly "ns-app-origin" and the origin domain is "alb.example.com". -/
theorem c4_cross_reference_witness :
    docC.kind = some "Distribution" ∧
    patchDoc "ns" "app" "alb.example.com" docC = .ok (some docCout) ∧
    ∃ cfg, docCout.spec = DocSpec.dist cfg ∧
      cfg.origins.head?.map Origin.id = some ("ns" ++ "-" ++ "app" ++ "-origin") ∧
      cfg.origins.head?.map Origin.domainName = some "alb.example.com" ∧
      cfg.targetOriginId = "ns" ++ "-" ++ "app" ++ "-origin" :=
  ⟨rfl, rfl, c4_cross_reference "ns" "app" "alb.example.com" docC docCout rfl rfl⟩

/-- C7: a template document whose kind is not in the Kind Registry is dropped
by materialization without error (materializing a template with it yields
exactly the materialization without it), and `create_or_update_crd` on such a
document performs no API call and leaves the world unchanged. -/
theorem c7_unknown_kind_skip (ns en alb : String) (doc : Doc) (env : Env) (s : S)
    (h : pluralGet doc.kind = none) :
    patchDoc ns en alb doc = .ok none ∧
    (∀ ds, load_and_patch_template ns en alb (doc :: ds) =
      load_and_patch_template ns en alb ds) ∧
    (create_or_update_crd env doc s).2.calls = s.calls ∧
    (create_or_update_crd env doc s).2.world = s.world := by
  have hp : patchDoc ns en alb doc = .ok none := by
    unfold patchDoc; rw [h]
  refine ⟨hp, ?_, ?_, ?_⟩
  · intro ds
    show (match patchDoc ns en alb doc with
      | .error e => Except.error e
      | .ok r =>
        match load_and_patch_template ns en alb ds with
        | .error e => Except.error e
        | .ok rest =>
          match r with
          | none => Except.ok rest
          | some d1 => Except.ok (d1 :: rest)) = _
    rw [hp]
    cases load_and_patch_template ns en alb ds <;> rfl
  · cases hm : doc.metaName <;> cases hn : doc.metaNs <;>
      simp [create_or_update_crd, hm, hn, h]
  · cases hm : doc.metaName <;> cases hn : doc.metaNs <;>
      simp [create_or_update_crd, hm, hn, h]

/-- C7 witness: a `kind: "Unknown"` document is skipped and triggers no
Resource Store call. -/
theorem c7_unknown_kind_skip_witness :
    pluralGet docUnknown.kind = none ∧
    patchDoc "ns" "app" "alb.example.com" docUnknown = .ok none ∧
    (create_or_update_crd envNone docUnknown sEmpty).2.calls = sEmpty.calls ∧
    (create_or_update_crd envNone docUnknown sEmpty).2.world = sEmpty.world := by
  have h := c7_unknown_kind_skip "ns" "app" "alb.example.com" docUnknown envNone sEmpty rfl
  exact ⟨rfl, h.1, h.2.2.1, h.2.2.2⟩

/-! ## Trace lemmas for the API primitives -/

theorem apiGet_snd (env : Env) (p n m : String) (s : S) :
    (apiGet env p n m s).2 = tick (.get p n m) s := rfl

theorem apiCreate_calls (env : Env) (p n m : String) (s : S) :
    ((apiCreate env p n m s).2).calls = s.calls ++ [ApiOp.create p n m] := by
  unfold apiCreate
  cases env.faults s.ctr
  · dsimp only
    split <;> rfl
  · rfl

theorem apiList_snd (env : Env) (p n : String) (s : S) :
    (apiList env p n s).2 = tick (.listOp p n) s := rfl

theorem apiDelete_calls (env : Env) (p n m : String) (s : S) :
    ((apiDelete env p n m s).2).calls = s.calls ++ [ApiOp.delete p n m] := by
  unfold apiDelete
  cases env.faults s.ctr
  · dsimp only
    split <;> rfl
  · rfl

theorem apiDelete_dnsTarget (env : Env) (p n m : String) (s : S) :
    ((apiDelete env p n m s).2).world.dnsTarget = s.world.dnsTarget := by
  unfold apiDelete
  cases env.faults s.ctr
  · dsimp only
    split <;> rfl
  · rfl

theorem patchNamespacedIngress_calls (env : Env) (ingressName ns : String) (v : Option String)
    (s : S) :
    ((patchNamespacedIngress env ingressName ns v s).2).calls =
      s.calls ++ [ApiOp.patchIng ns ingressName v] := by
  unfold patchNamespacedIngress
  cases env.faults s.ctr <;> rfl

/-- The loop `delete_loop` only appends delete calls to the trace. -/
theorem delete_loop_calls (env : Env) (kind plural ns pfx : String) (names : List String)
    (s : S) :
    ∃ ext, (delete_loop env kind plural ns pfx names s).calls = s.calls ++ ext ∧
      ∀ op ∈ ext, isAnnWrite op = false := by
  induction names generalizing s with
  | nil => exact ⟨[], by simp [delete_loop]⟩
  | cons nm nms ih =>
    unfold delete_loop
    split
    · rcases hd : apiDelete env plural ns nm s with ⟨r, s1⟩
      have hc : s1.calls = s.calls ++ [ApiOp.delete plural ns nm] := by
        have := apiDelete_calls env plural ns nm s
        rw [hd] at this; exact this
      cases r with
      | ok u =>
        dsimp only
        obtain ⟨ext, he, hw⟩ := ih _
        refine ⟨ApiOp.delete plural ns nm :: ext, ?_, ?_⟩
        · rw [he]
          show s1.calls ++ ext = _
          rw [hc, List.append_assoc]
          rfl
        · intro op hop
          rcases List.mem_cons.1 hop with h | h
          · subst h; rfl
          · exact hw op h
      | error st =>
        dsimp only
        refine ⟨[ApiOp.delete plural ns nm], ?_, ?_⟩
        · show s1.calls = _
          exact hc
        · intro op hop
          rcases List.mem_cons.1 hop with h | h
          · subst h; rfl
          · cases h
    · exact ih s

/-- The pass `remove_kind` appends its list call followed by delete calls only. -/
theorem remove_kind_calls (env : Env) (ns en kind plural : String) (s : S) :
    ∃ ext, (remove_kind env ns en kind plural s).calls =
        s.calls ++ (ApiOp.listOp plural ns :: ext) ∧
      ∀ op ∈ ext, isAnnWrite op = false := by
  unfold remove_kind
  rcases hl : apiList env plural ns s with ⟨r, s1⟩
  have hs1 : s1 = tick (.listOp plural ns) s := by
    have h3 := apiList_snd env plural ns s
    rw [hl] at h3
    exact h3
  have hc : s1.calls = s.calls ++ [ApiOp.listOp plural ns] := by
    rw [hs1]; rfl
  cases r with
  | ok names =>
    dsimp only
    obtain ⟨ext, he, hw⟩ := delete_loop_calls env kind plural ns (ns ++ "-" ++ en ++ "-") names s1
    refine ⟨ext, ?_, hw⟩
    rw [he, hc, List.append_assoc]
    rfl
  | error st =>
    dsimp only
    exact ⟨[], by simpa using hc, by simp⟩

/-- The per-kind fold of `remove_crds_and_patch`: the trace grows by store
calls only, and every kind of the registry contributes its list call,
whatever the fault schedule does. -/
theorem remove_fold_calls (env : Env) (ns en : String) (l : List (String × String)) (s : S) :
    ∃ ext, (l.foldl (fun acc kp => remove_kind env ns en kp.1 kp.2 acc) s).calls =
        s.calls ++ ext ∧
      (∀ op ∈ ext, isAnnWrite op = false) ∧
      (∀ kp ∈ l, ApiOp.listOp kp.2 ns ∈ ext) := by
  induction l generalizing s with
  | nil => exact ⟨[], by simp⟩
  | cons kp kps ih =>
    obtain ⟨ext1, he1, hw1⟩ := remove_kind_calls env ns en kp.1 kp.2 s
    obtain ⟨ext2, he2, hw2, hm2⟩ := ih (remove_kind env ns en kp.1 kp.2 s)
    refine ⟨(ApiOp.listOp kp.2 ns :: ext1) ++ ext2, ?_, ?_, ?_⟩
    · simp only [List.foldl_cons]
      rw [he2, he1]
      exact List.append_assoc _ _ _
    · intro op hop
      rcases List.mem_append.1 hop with h | h
      · rcases List.mem_cons.1 h with h1 | h1
        · subst h1; rfl
        · exact hw1 op h1
      · exact hw2 op h
    · intro kq hkq
      rcases List.mem_cons.1 hkq with h | h
      · subst h
        exact List.mem_append_left _ (List.mem_cons_self _ _)
      · exact List.mem_append_right _ (hm2 kq h)

/-! ## Claims C10, C9, C1 -/

/-- C10: on every Disabled-path invocation, the DNS-target annotation clear
is attempted exactly once, after the whole per-kind delete loop, whatever
faults listing or deleting raised: the trace of `remove_crds_and_patch` is
the delete-loop trace (which contains no annotation write) followed by
exactly the one clearing patch call. -/
theorem c10_clear_after_deletes (env : Env) (ns en : String) (s : S) :
    ∃ mid, (remove_crds_and_patch env ns en s).calls =
        s.calls ++ mid ++ [ApiOp.patchIng ns en none] ∧
      ∀ op ∈ mid, isAnnWrite op = false := by
  unfold remove_crds_and_patch
  dsimp only
  obtain ⟨ext, hc, hw, _⟩ := remove_fold_calls env ns en PLURAL_MAP s
  rcases hp : patchNamespacedIngress env en ns none
      (PLURAL_MAP.foldl (fun acc kp => remove_kind env ns en kp.1 kp.2 acc) s) with ⟨r, s2⟩
  have hc2 : s2.calls = s.calls ++ ext ++ [ApiOp.patchIng ns en none] := by
    have h4 := patchNamespacedIngress_calls env en ns none
      (PLURAL_MAP.foldl (fun acc kp => remove_kind env ns en kp.1 kp.2 acc) s)
    rw [hp] at h4
    show ((r, s2).2).calls = _
    rw [h4, hc]
  cases r with
  | ok u => exact ⟨ext, by rw [hp]; exact hc2, hw⟩
  | error st => exact ⟨ext, by rw [hp]; exact hc2, hw⟩

/-- C9: an Enabled tick with no resolved backend hostname leaves the world
untouched, performs no Resource Store call and no annotation write (its only
API interaction is the ingress status read), returns normally, and logs the
skip as its final log line. -/
theorem c9_deferred_enablement (env : Env) (anns : List (String × String))
    (tmpl : List Doc) (ns name : String) (s : S)
    (he : cfEnabledOf anns = true) :
    (reconcile_ingress env anns none tmpl ns name s).world = s.world ∧
    (reconcile_ingress env anns none tmpl ns name s).calls =
      s.calls ++ [ApiOp.readIng ns name] ∧
    (∀ op ∈ (reconcile_ingress env anns none tmpl ns name s).calls.drop s.calls.length,
      isStoreCall op = false ∧ isAnnWrite op = false) ∧
    ∃ msg, ∃ pre, (reconcile_ingress env anns none tmpl ns name s).log =
      s.log ++ pre ++ [LogEvent.error msg] := by
  unfold reconcile_ingress
  rw [if_pos he]
  dsimp only [tick]
  refine ⟨rfl, rfl, ?_, ?_⟩
  · intro op hop
    rw [show (s.calls ++ [ApiOp.readIng ns name]).drop s.calls.length = [ApiOp.readIng ns name]
      from List.drop_left _ _] at hop
    rcases List.mem_cons.1 hop with h | h
    · subst h; exact ⟨rfl, rfl⟩
    · cases h
  · exact ⟨"Failed to retrieve LoadBalancer hostname for Ingress " ++ name,
      [.info ("Processing Ingress: " ++ name ++ " in namespace: " ++ ns),
       .info "Annotations: snapshot"], by simp⟩

/-- C9 witness: concrete Enabled tick with unresolved hostname. -/
theorem c9_deferred_enablement_witness :
    cfEnabledOf annsTrue = true ∧
    ((reconcile_ingress envNone annsTrue none tmplC "ns" "app" sEmpty).world = sEmpty.world ∧
     (reconcile_ingress envNone annsTrue none tmplC "ns" "app" sEmpty).calls =
       sEmpty.calls ++ [ApiOp.readIng "ns" "app"] ∧
     (∀ op ∈ (reconcile_ingress envNone annsTrue none tmplC "ns" "app" sEmpty).calls.drop
        sEmpty.calls.length, isStoreCall op = false ∧ isAnnWrite op = false) ∧
     ∃ msg, ∃ pre, (reconcile_ingress envNone annsTrue none tmplC "ns" "app" sEmpty).log =
       sEmpty.log ++ pre ++ [LogEvent.error msg]) :=
  ⟨by decide, c9_deferred_enablement envNone annsTrue tmplC "ns" "app" sEmpty (by decide)⟩

/-- C1 (code bug): on an Enabled tick with a resolved backend hostname the
source materializes the template documents but the `create_or_update_crd`
loop is commented out, so no existence check or create is ever issued and
the materialized resource does not exist in the store after the tick:
materialization of the concrete template succeeds and yields a document, yet
the tick from an empty store performs zero Resource Store calls and ends with the store still empty. -/
theorem c1_enabled_path_creates_nothing :
    load_and_patch_template "ns" "app" "alb.example.com" tmplC = .ok [docCout] ∧
    (reconcile_ingress envNone annsTrue (some "alb.example.com") tmplC "ns" "app"
      sEmpty).world.store = [] ∧
    (∀ op ∈ (reconcile_ingress envNone annsTrue (some "alb.example.com") tmplC "ns" "app"
      sEmpty).calls, isStoreCall op = false) := by
  refine ⟨rfl, rfl, ?_⟩
  decide

/-! ## Claim C8: failure isolation -/

/-- C8 counterexample: with two Distribution resources of the endpoint in the
store and a transient fault injected into the delete of the first
(`envFault1` faults API call #1; call #0 is the Distribution list), the
per-kind `except` of `remove_crds_and_patch` aborts the kind's loop: the
delete of the second resource is attempted in a fault-free run but never
attempted in the faulted run, and the second resource survives the faulted
run although the fault hit only the first resource. -/
theorem c8_per_resource_isolation_fails :
    ApiOp.delete "distributions" "ns" "ns-app-a" ∈
      (remove_crds_and_patch envFault1 "ns" "app" sTwoDist).calls ∧
    ApiOp.delete "distributions" "ns" "ns-app-b" ∉
      (remove_crds_and_patch envFault1 "ns" "app" sTwoDist).calls ∧
    ("distributions", "ns", "ns-app-b") ∈
      (remove_crds_and_patch envFault1 "ns" "app" sTwoDist).world.store ∧
    ApiOp.delete "distributions" "ns" "ns-app-b" ∈
      (remove_crds_and_patch envNone "ns" "app" sTwoDist).calls ∧
    ("distributions", "ns", "ns-app-b") ∉
      (remove_crds_and_patch envNone "ns" "app" sTwoDist).world.store := by
  decide

/-- The function `create_or_update_crd` only ever appends to the call trace. -/
theorem couc_calls_ext (env : Env) (doc : Doc) (s : S) :
    ∃ ext, ((create_or_update_crd env doc s).2).calls = s.calls ++ ext := by
  unfold create_or_update_crd
  rcases hm : doc.metaName with _ | nm
  · exact ⟨[], by simp⟩
  rcases hn : doc.metaNs with _ | dns
  · exact ⟨[], by simp⟩
  dsimp only
  rcases hp : pluralGet doc.kind with _ | p
  · exact ⟨[], by simp⟩
  dsimp only
  rcases hg : apiGet env p dns nm s with ⟨r, s1⟩
  have hs1 : s1.calls = s.calls ++ [ApiOp.get p dns nm] := by
    have h3 := apiGet_snd env p dns nm s
    rw [hg] at h3
    show ((r, s1).2).calls = _
    rw [h3]; rfl
  try rw [hg]
  cases r with
  | ok u => exact ⟨[ApiOp.get p dns nm], hs1⟩
  | error st =>
    dsimp only
    by_cases h404 : st ≠ 404
    · rw [if_pos h404]
      exact ⟨[ApiOp.get p dns nm], hs1⟩
    · rw [if_neg h404]
      rcases hc : apiCreate env p dns nm s1 with ⟨r2, s2⟩
      have hs2 : s2.calls = s1.calls ++ [ApiOp.create p dns nm] := by
        have h4 := apiCreate_calls env p dns nm s1
        rw [hc] at h4
        exact h4
      try rw [hc]
      have hfin : s2.calls = s.calls ++ [ApiOp.get p dns nm, ApiOp.create p dns nm] := by
        rw [hs2, hs1, List.append_assoc]; rfl
      cases r2 with
      | ok u => exact ⟨[ApiOp.get p dns nm, ApiOp.create p dns nm], hfin⟩
      | error st2 => exact ⟨[ApiOp.get p dns nm, ApiOp.create p dns nm], hfin⟩

/-- For a document with metadata, `create_or_update_crd` raises no uncaught
exception. -/
theorem couc_fst_none (env : Env) (doc : Doc) (s : S) (nm dns : String)
    (hm : doc.metaName = some nm) (hn : doc.metaNs = some dns) :
    (create_or_update_crd env doc s).1 = none := by
  unfold create_or_update_crd
  rw [hm, hn]
  dsimp only
  rcases hp : pluralGet doc.kind with _ | p
  · rfl
  dsimp only
  rcases hg : apiGet env p dns nm s with ⟨r, s1⟩
  try rw [hg]
  cases r with
  | ok u => rfl
  | error st =>
    dsimp only
    by_cases h404 : st ≠ 404
    · rw [if_pos h404]
    · rw [if_neg h404]
      rcases hc : apiCreate env p dns nm s1 with ⟨r2, s2⟩
      try rw [hc]
      cases r2 <;> rfl

/-- For a registered document with metadata, `create_or_update_crd` always
records its existence check, whatever the fault schedule does. -/
theorem couc_attempted (env : Env) (doc : Doc) (s : S) (p nm dns : String)
    (hm : doc.metaName = some nm) (hn : doc.metaNs = some dns)
    (hp : pluralGet doc.kind = some p) :
    ApiOp.get p dns nm ∈ ((create_or_update_crd env doc s).2).calls := by
  unfold create_or_update_crd
  rw [hm, hn]
  dsimp only
  try rw [hp]
  dsimp only
  rcases hg : apiGet env p dns nm s with ⟨r, s1⟩
  have hs1 : s1.calls = s.calls ++ [ApiOp.get p dns nm] := by
    have h3 := apiGet_snd env p dns nm s
    rw [hg] at h3
    show ((r, s1).2).calls = _
    rw [h3]; rfl
  have hmem1 : ApiOp.get p dns nm ∈ s1.calls := by
    rw [hs1]; exact List.mem_append_right _ (List.mem_cons_self _ _)
  try rw [hg]
  cases r with
  | ok u => exact hmem1
  | error st =>
    dsimp only
    by_cases h404 : st ≠ 404
    · rw [if_pos h404]; exact hmem1
    · rw [if_neg h404]
      rcases hc : apiCreate env p dns nm s1 with ⟨r2, s2⟩
      have hs2 : s2.calls = s1.calls ++ [ApiOp.create p dns nm] := by
        have h4 := apiCreate_calls env p dns nm s1
        rw [hc] at h4
        exact h4
      have hmem2 : ApiOp.get p dns nm ∈ s2.calls := by
        rw [hs2]; exact List.mem_append_left _ hmem1
      try rw [hc]
      cases r2 with
      | ok u => exact hmem2
      | error st2 => exact hmem2

/-- The pass `createAll` only ever appends to the call trace. -/
theorem createAll_calls_ext (env : Env) (docs : List Doc) (s : S) :
    ∃ ext, ((createAll env docs s).2).calls = s.calls ++ ext := by
  induction docs generalizing s with
  | nil => exact ⟨[], by simp [createAll]⟩
  | cons d ds ih =>
    unfold createAll
    obtain ⟨e1, he1⟩ := couc_calls_ext env d s
    rcases hcu : create_or_update_crd env d s with ⟨exn, s1⟩
    have hs1 : s1.calls = s.calls ++ e1 := by
      rw [hcu] at he1; exact he1
    try rw [hcu]
    cases exn with
    | some e => exact ⟨e1, hs1⟩
    | none =>
      obtain ⟨e2, he2⟩ := ih s1
      refine ⟨e1 ++ e2, ?_⟩
      dsimp only
      rw [he2, hs1, List.append_assoc]

/-- C8 (amended): on the create path, failure isolation is per resource —
every materialized document's existence check is attempted whatever faults
earlier documents' store calls hit; on the delete path, isolation is only
per kind — every kind of the registry gets its list call attempted whatever
faults other kinds hit (but, per the counterexample, a delete fault abandons
the remaining resources of the same kind for that tick). -/
theorem c8_isolation_amended :
    (∀ (env : Env) (docs : List Doc) (s : S),
      (∀ d ∈ docs, ∃ nm dns, d.metaName = some nm ∧ d.metaNs = some dns) →
      ∀ d ∈ docs, ∀ p nm dns, d.metaName = some nm → d.metaNs = some dns →
        pluralGet d.kind = some p →
        ApiOp.get p dns nm ∈ ((createAll env docs s).2).calls) ∧
    (∀ (env : Env) (ns en : String) (s : S), ∀ kp ∈ PLURAL_MAP,
      ApiOp.listOp kp.2 ns ∈ (remove_crds_and_patch env ns en s).calls) := by
  constructor
  · intro env docs
    induction docs with
    | nil =>
      intro s hgood d hd
      cases hd
    | cons d0 ds ih =>
      intro s hgood d hd p nm dns hm hn hp
      unfold createAll
      rcases hcu : create_or_update_crd env d0 s with ⟨exn, s1⟩
      try rw [hcu]
      rcases List.mem_cons.1 hd with h | h
      · subst h
        have hmem := couc_attempted env d s p nm dns hm hn hp
        rw [hcu] at hmem
        cases exn with
        | some e => exact hmem
        | none =>
          obtain ⟨e2, he2⟩ := createAll_calls_ext env ds s1
          dsimp only
          rw [he2]
          exact List.mem_append_left _ hmem
      · obtain ⟨nm0, dns0, hm0, hn0⟩ := hgood d0 (List.mem_cons_self _ _)
        have hfst := couc_fst_none env d0 s nm0 dns0 hm0 hn0
        rw [hcu] at hfst
        dsimp only at hfst
        subst hfst
        exact ih s1 (fun d1 hd1 => hgood d1 (List.mem_cons_of_mem _ hd1)) d h p nm dns hm hn hp
  · intro env ns en s kp hkp
    unfold remove_crds_and_patch
    dsimp only
    obtain ⟨ext, hc, _, hmem⟩ := remove_fold_calls env ns en PLURAL_MAP s
    rcases hp : patchNamespacedIngress env en ns none
        (PLURAL_MAP.foldl (fun acc kq => remove_kind env ns en kq.1 kq.2 acc) s) with ⟨r, s2⟩
    have hc2 : s2.calls = s.calls ++ ext ++ [ApiOp.patchIng ns en none] := by
      have h4 := patchNamespacedIngress_calls env en ns none
        (PLURAL_MAP.foldl (fun acc kq => remove_kind env ns en kq.1 kq.2 acc) s)
      rw [hp] at h4
      show ((r, s2).2).calls = _
      rw [h4, hc]
    have hin : ApiOp.listOp kp.2 ns ∈ s2.calls := by
      rw [hc2]
      exact List.mem_append_left _ (List.mem_append_right _ (hmem kp hkp))
    try rw [hp]
    cases r with
    | ok u => exact hin
    | error st => exact hin

/-- C8 amended witness: concrete instantiations of both isolation statements. -/
theorem c8_isolation_amended_witness :
    ApiOp.get "distributions" "ns" "ns-app-distribution" ∈
      ((createAll envFault1 [docCout] sEmpty).2).calls ∧
    ApiOp.listOp "functions" "ns" ∈ (remove_crds_and_patch envFault1 "ns" "app" sTwoDist).calls :=
  ⟨c8_isolation_amended.1 envFault1 [docCout] sEmpty
      (by intro d hd
          rcases List.mem_cons.1 hd with h | h
          · subst h; exact ⟨"ns-app-distribution", "ns", rfl, rfl⟩
          · cases h)
      docCout (List.mem_cons_self _ _) "distributions" "ns-app-distribution" "ns" rfl rfl rfl,
   c8_isolation_amended.2 envFault1 "ns" "app" sTwoDist ("Function", "functions")
      (by decide)⟩

/-! ## Claim C2: Disabled-path teardown (fault-free) -/

theorem apiList_ff (env : Env) (p n : String) (s : S) (hf : noFaults env) :
    apiList env p n s =
      (.ok (s.world.store.filterMap
        (fun k => if k.1 = p ∧ k.2.1 = n then some k.2.2 else none)),
       tick (.listOp p n) s) := by
  unfold apiList
  rw [hf s.ctr]

theorem apiDelete_ff_mem (env : Env) (p n m : String) (s : S) (hf : noFaults env)
    (hm : (p, n, m) ∈ s.world.store) :
    apiDelete env p n m s =
      (.ok (), { world := { store := s.world.store.filter (fun k => decide (k ≠ (p, n, m))),
                            dnsTarget := s.world.dnsTarget },
                 ctr := s.ctr + 1, calls := s.calls ++ [ApiOp.delete p n m], log := s.log }) := by
  unfold apiDelete tick
  rw [hf s.ctr]
  dsimp only
  rw [if_pos hm]

theorem patchNamespacedIngress_ff (env : Env) (ingressName ns : String) (v : Option String)
    (s : S) (hf : noFaults env) :
    patchNamespacedIngress env ingressName ns v s =
      (.ok (), { world := { store := s.world.store, dnsTarget := v },
                 ctr := s.ctr + 1, calls := s.calls ++ [ApiOp.patchIng ns ingressName v],
                 log := s.log }) := by
  unfold patchNamespacedIngress tick
  rw [hf s.ctr]

theorem cond_cons_true (plural ns pfx nm : String) (nms : List String)
    (hsw : strStartsWith nm pfx = true) (k : Key) :
    ((!(delCond plural ns pfx nms k)) && decide (k ≠ (plural, ns, nm)))
      = !(delCond plural ns pfx (nm :: nms) k) := by
  rcases k with ⟨k1, k2, k3⟩
  unfold delCond
  by_cases h1 : k1 = plural <;> by_cases h2 : k2 = ns <;> by_cases h3 : k3 = nm <;>
    simp [h1, h2, h3, hsw, Prod.ext_iff, List.mem_cons]

theorem cond_skip (plural ns pfx nm : String) (nms : List String)
    (hsw : strStartsWith nm pfx = false) (k : Key) :
    (!(delCond plural ns pfx nms k)) = !(delCond plural ns pfx (nm :: nms) k) := by
  rcases k with ⟨k1, k2, k3⟩
  unfold delCond
  by_cases h3 : k3 = nm <;> simp [h3, hsw, List.mem_cons]

/-- The fault-free inner delete loop removes exactly the listed,
prefix-carrying keys of its plural and namespace and touches nothing else. -/
theorem delete_loop_ff (env : Env) (kind plural ns pfx : String) (names : List String) (s : S)
    (hf : noFaults env) (hnames : names.Nodup)
    (hmem : ∀ nm ∈ names, strStartsWith nm pfx = true → (plural, ns, nm) ∈ s.world.store) :
    (delete_loop env kind plural ns pfx names s).world.store
        = s.world.store.filter (fun k => !(delCond plural ns pfx names k)) ∧
    (delete_loop env kind plural ns pfx names s).world.dnsTarget = s.world.dnsTarget := by
  induction names generalizing s with
  | nil =>
    refine ⟨?_, rfl⟩
    symm
    apply List.filter_eq_self.2
    intro a _
    simp [delCond]
  | cons nm nms ih =>
    unfold delete_loop
    by_cases hsw : strStartsWith nm pfx = true
    · rw [if_pos hsw]
      have hkey : (plural, ns, nm) ∈ s.world.store := hmem nm (List.mem_cons_self _ _) hsw
      rw [apiDelete_ff_mem env plural ns nm s hf hkey]
      dsimp only
      have hnotin : nm ∉ nms := (List.nodup_cons.1 hnames).1
      obtain ⟨ihs, ihd⟩ := ih
        { world := { store := s.world.store.filter (fun k => decide (k ≠ (plural, ns, nm))),
                     dnsTarget := s.world.dnsTarget },
          ctr := s.ctr + 1, calls := s.calls ++ [ApiOp.delete plural ns nm],
          log := s.log ++ [LogEvent.info ("Deleted " ++ kind ++ " " ++ nm)] }
        (List.nodup_cons.1 hnames).2
        (by
          intro nm1 hin1 hsw1
          have hne : nm1 ≠ nm := fun heq => hnotin (heq ▸ hin1)
          refine List.mem_filter.2 ⟨hmem nm1 (List.mem_cons_of_mem _ hin1) hsw1, ?_⟩
          exact decide_eq_true (by simp [Prod.ext_iff, hne]))
      refine ⟨?_, ihd⟩
      rw [ihs]
      dsimp only
      rw [List.filter_filter]
      exact List.filter_congr (fun a _ => cond_cons_true plural ns pfx nm nms hsw a)
    · rw [if_neg hsw]
      have hsw0 : strStartsWith nm pfx = false := by simpa using hsw
      obtain ⟨ihs, ihd⟩ := ih s (List.nodup_cons.1 hnames).2
        (fun nm1 hin1 hsw1 => hmem nm1 (List.mem_cons_of_mem _ hin1) hsw1)
      refine ⟨?_, ihd⟩
      rw [ihs]
      exact List.filter_congr (fun a _ => cond_skip plural ns pfx nm nms hsw0 a)

/-- The fault-free per-kind pass removes exactly this kind's prefix-carrying
keys in this namespace. -/
theorem remove_kind_ff (env : Env) (ns en kind plural : String) (s : S)
    (hf : noFaults env) (hnd : s.world.store.Nodup) :
    (remove_kind env ns en kind plural s).world.store
        = s.world.store.filter (fun k => !(kindCond plural ns (ns ++ "-" ++ en ++ "-") k)) ∧
    (remove_kind env ns en kind plural s).world.dnsTarget = s.world.dnsTarget := by
  unfold remove_kind
  rw [apiList_ff env plural ns s hf]
  dsimp only
  have hnames : (s.world.store.filterMap
      (fun k => if k.1 = plural ∧ k.2.1 = ns then some k.2.2 else none)).Nodup := by
    apply List.Nodup.filterMap ?_ hnd
    intro a a1 b hb hb1
    by_cases ha : a.1 = plural ∧ a.2.1 = ns
    · rw [if_pos ha] at hb
      by_cases ha1 : a1.1 = plural ∧ a1.2.1 = ns
      · rw [if_pos ha1] at hb1
        have e1 : a.2.2 = b := by simpa using hb
        have e2 : a1.2.2 = b := by simpa using hb1
        rcases a with ⟨x1, x2, x3⟩
        rcases a1 with ⟨y1, y2, y3⟩
        simp only at e1 e2
        simp only [Prod.ext_iff]
        obtain ⟨hax, hay⟩ := ha
        obtain ⟨hbx, hby⟩ := ha1
        simp only at hax hay hbx hby
        exact ⟨hax.trans hbx.symm, hay.trans hby.symm, e1.trans e2.symm⟩
      · rw [if_neg ha1] at hb1
        cases hb1
    · rw [if_neg ha] at hb
      cases hb
  have hmem : ∀ nm ∈ (s.world.store.filterMap
      (fun k => if k.1 = plural ∧ k.2.1 = ns then some k.2.2 else none)),
      strStartsWith nm (ns ++ "-" ++ en ++ "-") = true →
      (plural, ns, nm) ∈ (tick (.listOp plural ns) s).world.store := by
    intro nm hin hsw1
    obtain ⟨k, hk, hfk⟩ := List.mem_filterMap.1 hin
    by_cases hc : k.1 = plural ∧ k.2.1 = ns
    · rw [if_pos hc] at hfk
      have : k.2.2 = nm := by simpa using hfk
      rcases k with ⟨x1, x2, x3⟩
      obtain ⟨e1, e2⟩ := hc
      simp only at e1 e2 this
      subst e1; subst e2; subst this
      exact hk
    · rw [if_neg hc] at hfk
      cases hfk
  obtain ⟨hs, hd⟩ := delete_loop_ff env kind plural ns (ns ++ "-" ++ en ++ "-")
    (s.world.store.filterMap (fun k => if k.1 = plural ∧ k.2.1 = ns then some k.2.2 else none))
    (tick (.listOp plural ns) s) hf hnames hmem
  refine ⟨?_, hd⟩
  rw [hs]
  apply List.filter_congr
  intro a ha
  unfold delCond kindCond
  by_cases h1 : a.1 = plural <;> by_cases h2 : a.2.1 = ns
  · have hmem2 : a.2.2 ∈ s.world.store.filterMap
        (fun k => if k.1 = plural ∧ k.2.1 = ns then some k.2.2 else none) :=
      List.mem_filterMap.2 ⟨a, ha, by rw [if_pos ⟨h1, h2⟩]⟩
    simp [h1, h2, hmem2]
  · simp [h1, h2]
  · simp [h1, h2]
  · simp [h1, h2]

theorem bool_and_not_or :
    ∀ a1 a2 b c : Bool, ((!(a1 && b && c)) && (!(a2 && b && c))) = !((a2 || a1) && b && c) := by
  decide

/-- The fault-free per-kind fold over a kind list removes exactly the
prefix-carrying keys of the listed plurals in this namespace. -/
theorem remove_fold_ff (env : Env) (ns en : String) (l : List (String × String)) (s : S)
    (hf : noFaults env) (hnd : s.world.store.Nodup) :
    ((l.foldl (fun acc kp => remove_kind env ns en kp.1 kp.2 acc) s).world.store
        = s.world.store.filter
            (fun k => !(teardownCond ns (ns ++ "-" ++ en ++ "-") (l.map Prod.snd) k))) ∧
    ((l.foldl (fun acc kp => remove_kind env ns en kp.1 kp.2 acc) s).world.dnsTarget
        = s.world.dnsTarget) ∧
    ((l.foldl (fun acc kp => remove_kind env ns en kp.1 kp.2 acc) s).world.store.Nodup) := by
  induction l generalizing s with
  | nil =>
    refine ⟨?_, rfl, hnd⟩
    symm
    apply List.filter_eq_self.2
    intro a _
    simp [teardownCond]
  | cons kp kps ih =>
    simp only [List.foldl_cons]
    obtain ⟨h1s, h1d⟩ := remove_kind_ff env ns en kp.1 kp.2 s hf hnd
    have hnd1 : (remove_kind env ns en kp.1 kp.2 s).world.store.Nodup := by
      rw [h1s]; exact List.Nodup.filter _ hnd
    obtain ⟨h2s, h2d, h2n⟩ := ih (remove_kind env ns en kp.1 kp.2 s) hnd1
    refine ⟨?_, h2d.trans h1d, h2n⟩
    rw [h2s, h1s, List.filter_filter]
    apply List.filter_congr
    intro a _
    unfold teardownCond kindCond
    rw [show decide (a.1 ∈ (kp :: kps).map Prod.snd)
        = (decide (a.1 = kp.2) || decide (a.1 ∈ kps.map Prod.snd)) by
      by_cases hx : a.1 = kp.2 <;> simp [List.mem_cons, hx]]
    exact bool_and_not_or _ _ _ _

/-- C2: on a Disabled tick with no faults, the reconciler deletes exactly the
resources of registered kinds in the endpoint's namespace whose name starts
with "{namespace}-{endpointName}-" (the surviving store is the filter
removing precisely those keys), and clears the DNS-target annotation. -/
theorem c2_teardown (env : Env) (anns : List (String × String)) (lb : Option String)
    (tmpl : List Doc) (ns en : String) (s : S)
    (hdis : cfEnabledOf anns = false) (hf : noFaults env) (hnd : s.world.store.Nodup) :
    (reconcile_ingress env anns lb tmpl ns en s).world.store
        = s.world.store.filter
            (fun k => !(teardownCond ns (ns ++ "-" ++ en ++ "-") registeredPlurals k)) ∧
    (reconcile_ingress env anns lb tmpl ns en s).world.dnsTarget = none := by
  unfold reconcile_ingress
  rw [if_neg (by simp [hdis])]
  unfold remove_crds_and_patch
  dsimp only
  obtain ⟨hfs, _, _⟩ := remove_fold_ff env ns en PLURAL_MAP
    { s with log := s.log ++
      [.info ("Processing Ingress: " ++ en ++ " in namespace: " ++ ns),
       .info "Annotations: snapshot"] } hf hnd
  rw [patchNamespacedIngress_ff env en ns none _ hf]
  dsimp only
  exact ⟨hfs, rfl⟩

/-- C2 witness: a concrete fault-free Disabled tick deletes exactly the two
prefix-matching registered resources and leaves the foreign-prefix,
foreign-namespace and unregistered-kind resources in place, then clears the
DNS target. -/
theorem c2_teardown_witness :
    ((reconcile_ingress envNone [] none [] "ns" "app" sTeardown).world.store
        = sTeardown.world.store.filter
            (fun k => !(teardownCond "ns" ("ns" ++ "-" ++ "app" ++ "-") registeredPlurals k)) ∧
     (reconcile_ingress envNone [] none [] "ns" "app" sTeardown).world.dnsTarget = none) ∧
    sTeardown.world.store.filter
        (fun k => !(teardownCond "ns" ("ns" ++ "-" ++ "app" ++ "-") registeredPlurals k))
      = [("distributions", "ns", "ns-other-d"), ("distributions", "other", "ns-app-x"),
         ("widgets", "ns", "ns-app-w")] :=
  ⟨c2_teardown envNone [] none [] "ns" "app" sTeardown (by decide) (fun _ => rfl) (by decide),
   by decide⟩

/-! ## Claim C6: idempotence of the check-then-create pass (fault-free) -/

theorem docKey_some (d : Doc) (p n m : String) (h : docKey d = some (p, n, m)) :
    pluralGet d.kind = some p ∧ d.metaNs = some n ∧ d.metaName = some m := by
  unfold docKey at h
  rcases hp : pluralGet d.kind with _ | p1 <;>
    rcases hn : d.metaNs with _ | n1 <;>
      rcases hm : d.metaName with _ | m1 <;>
        rw [hp, hn, hm] at h <;>
        simp_all

/-- Fault-free `create_or_update_crd` on a key already in the store: the
existence check succeeds, nothing is created, only the check and a log line
are recorded. -/
theorem couc_ff_present (env : Env) (d : Doc) (s : S) (p n m : String)
    (hf : noFaults env) (hk : docKey d = some (p, n, m)) (hin : (p, n, m) ∈ s.world.store) :
    create_or_update_crd env d s =
      (none, { world := s.world, ctr := s.ctr + 1, calls := s.calls ++ [ApiOp.get p n m],
               log := s.log ++ [LogEvent.info (kindStr d ++ " " ++ m ++ " already exists")] }) := by
  obtain ⟨hp, hn, hm⟩ := docKey_some d p n m hk
  unfold create_or_update_crd
  rw [hm, hn]
  dsimp only
  rw [hp]
  dsimp only
  unfold apiGet
  rw [hf s.ctr]
  dsimp only
  rw [if_pos hin]
  rfl

/-- Fault-free `create_or_update_crd` on an absent key: the existence check
reports 404 and the create inserts the key. -/
theorem couc_ff_absent (env : Env) (d : Doc) (s : S) (p n m : String)
    (hf : noFaults env) (hk : docKey d = some (p, n, m)) (hout : (p, n, m) ∉ s.world.store) :
    create_or_update_crd env d s =
      (none, { world := { store := s.world.store ++ [(p, n, m)], dnsTarget := s.world.dnsTarget },
               ctr := s.ctr + 2, calls := s.calls ++ [ApiOp.get p n m, ApiOp.create p n m],
               log := s.log ++ [LogEvent.info ("Created " ++ kindStr d ++ " " ++ m)] }) := by
  obtain ⟨hp, hn, hm⟩ := docKey_some d p n m hk
  unfold create_or_update_crd
  rw [hm, hn]
  dsimp only
  rw [hp]
  dsimp only
  unfold apiGet
  rw [hf s.ctr]
  dsimp only
  rw [if_neg hout]
  dsimp only
  rw [if_neg (by simp)]
  unfold apiCreate tick
  dsimp only
  rw [hf (s.ctr + 1)]
  dsimp only
  rw [if_neg hout]
  dsimp only
  rw [List.append_assoc]
  rfl

theorem couc_ff_present_parts (env : Env) (d : Doc) (s : S) (p n m : String)
    (hf : noFaults env) (hk : docKey d = some (p, n, m)) (hin : (p, n, m) ∈ s.world.store) :
    (create_or_update_crd env d s).1 = none ∧
    (create_or_update_crd env d s).2.world = s.world ∧
    (create_or_update_crd env d s).2.calls = s.calls ++ [ApiOp.get p n m] := by
  rw [couc_ff_present env d s p n m hf hk hin]
  exact ⟨rfl, rfl, rfl⟩

theorem couc_ff_absent_parts (env : Env) (d : Doc) (s : S) (p n m : String)
    (hf : noFaults env) (hk : docKey d = some (p, n, m)) (hout : (p, n, m) ∉ s.world.store) :
    (create_or_update_crd env d s).1 = none ∧
    (create_or_update_crd env d s).2.world.store = s.world.store ++ [(p, n, m)] ∧
    (create_or_update_crd env d s).2.world.dnsTarget = s.world.dnsTarget ∧
    (create_or_update_crd env d s).2.calls = s.calls ++ [ApiOp.get p n m, ApiOp.create p n m] := by
  rw [couc_ff_absent env d s p n m hf hk hout]
  exact ⟨rfl, rfl, rfl, rfl⟩

/-- A fault-free `createAll` pass raises nothing, only grows the store, and
afterwards every processed document's key exists in the store. -/
theorem createAll_ff_grow (env : Env) (docs : List Doc) (s : S)
    (hf : noFaults env) (hgood : ∀ d ∈ docs, (docKey d).isSome) :
    (createAll env docs s).1 = none ∧
    (∀ k ∈ s.world.store, k ∈ (createAll env docs s).2.world.store) ∧
    (∀ d ∈ docs, ∀ k, docKey d = some k → k ∈ (createAll env docs s).2.world.store) := by
  induction docs generalizing s with
  | nil =>
    exact ⟨rfl, fun k h => h, fun d hd => absurd hd (List.not_mem_nil _)⟩
  | cons d0 ds ih =>
    obtain ⟨⟨p0, n0, m0⟩, hk0⟩ := Option.isSome_iff_exists.1 (hgood d0 (List.mem_cons_self _ _))
    have htail : ∀ d ∈ ds, (docKey d).isSome :=
      fun d hd => hgood d (List.mem_cons_of_mem _ hd)
    unfold createAll
    rcases hcu : create_or_update_crd env d0 s with ⟨exn, s1⟩
    try rw [hcu]
    by_cases hin : (p0, n0, m0) ∈ s.world.store
    · obtain ⟨e1, e2, _⟩ := couc_ff_present_parts env d0 s p0 n0 m0 hf hk0 hin
      rw [hcu] at e1 e2
      have hexn : exn = none := e1
      subst hexn
      dsimp only
      obtain ⟨ih1, ih2, ih3⟩ := ih s1 htail
      refine ⟨ih1, ?_, ?_⟩
      · intro k hk
        apply ih2
        show k ∈ s1.world.store
        rw [show s1.world = s.world from e2]
        exact hk
      · intro d hd k hdk
        rcases List.mem_cons.1 hd with h | h
        · subst h
          rw [hk0] at hdk
          injection hdk with h2
          subst h2
          apply ih2
          show (p0, n0, m0) ∈ s1.world.store
          rw [show s1.world = s.world from e2]
          exact hin
        · exact ih3 d h k hdk
    · obtain ⟨e1, e2, _, _⟩ := couc_ff_absent_parts env d0 s p0 n0 m0 hf hk0 hin
      rw [hcu] at e1 e2
      have hexn : exn = none := e1
      subst hexn
      dsimp only
      obtain ⟨ih1, ih2, ih3⟩ := ih s1 htail
      refine ⟨ih1, ?_, ?_⟩
      · intro k hk
        apply ih2
        show k ∈ s1.world.store
        rw [e2]
        exact List.mem_append_left _ hk
      · intro d hd k hdk
        rcases List.mem_cons.1 hd with h | h
        · subst h
          rw [hk0] at hdk
          injection hdk with h2
          subst h2
          apply ih2
          show (p0, n0, m0) ∈ s1.world.store
          rw [e2]
          exact List.mem_append_right _ (List.mem_cons_self _ _)
        · exact ih3 d h k hdk

/-- A fault-free `createAll` pass over documents whose keys all already exist
leaves the world unchanged and records exactly one existence check per
document (and nothing else). -/
theorem createAll_ff_present_run (env : Env) (docs : List Doc) (s : S)
    (hf : noFaults env) (hgood : ∀ d ∈ docs, (docKey d).isSome)
    (hpres : ∀ d ∈ docs, ∀ k, docKey d = some k → k ∈ s.world.store) :
    (createAll env docs s).2.world = s.world ∧
    (createAll env docs s).2.calls = s.calls ++ docs.filterMap
      (fun d => (docKey d).map (fun k => ApiOp.get k.1 k.2.1 k.2.2)) := by
  induction docs generalizing s with
  | nil => exact ⟨rfl, by simp [createAll]⟩
  | cons d0 ds ih =>
    obtain ⟨⟨p0, n0, m0⟩, hk0⟩ := Option.isSome_iff_exists.1 (hgood d0 (List.mem_cons_self _ _))
    have htail : ∀ d ∈ ds, (docKey d).isSome :=
      fun d hd => hgood d (List.mem_cons_of_mem _ hd)
    have hin : (p0, n0, m0) ∈ s.world.store :=
      hpres d0 (List.mem_cons_self _ _) _ hk0
    unfold createAll
    rcases hcu : create_or_update_crd env d0 s with ⟨exn, s1⟩
    try rw [hcu]
    obtain ⟨e1, e2, e3⟩ := couc_ff_present_parts env d0 s p0 n0 m0 hf hk0 hin
    rw [hcu] at e1 e2 e3
    have hexn : exn = none := e1
    subst hexn
    dsimp only
    obtain ⟨ih1, ih2⟩ := ih s1 htail
      (by
        intro d hd k hdk
        show k ∈ s1.world.store
        rw [show s1.world = s.world from e2]
        exact hpres d (List.mem_cons_of_mem _ hd) k hdk)
    refine ⟨ih1.trans e2, ?_⟩
    rw [ih2]
    have e3c : s1.calls = s.calls ++ [ApiOp.get p0 n0 m0] := e3
    rw [e3c, List.append_assoc]
    congr 1
    simp [List.filterMap_cons, hk0]

/-- In the trace of a fault-free `createAll` pass, every create is directly
justified: the pass appended `[existence check, create]` for that key, so the
two-element sequence embeds in order into the appended trace. -/
theorem createAll_ff_trace (env : Env) (docs : List Doc) (s : S)
    (hf : noFaults env) (hgood : ∀ d ∈ docs, (docKey d).isSome) :
    ∃ tr, (createAll env docs s).2.calls = s.calls ++ tr ∧
      (∀ p n m, ApiOp.create p n m ∈ tr →
        List.Sublist [ApiOp.get p n m, ApiOp.create p n m] tr) := by
  induction docs generalizing s with
  | nil => exact ⟨[], by simp [createAll], by intro p n m h; cases h⟩
  | cons d0 ds ih =>
    obtain ⟨⟨p0, n0, m0⟩, hk0⟩ := Option.isSome_iff_exists.1 (hgood d0 (List.mem_cons_self _ _))
    have htail : ∀ d ∈ ds, (docKey d).isSome :=
      fun d hd => hgood d (List.mem_cons_of_mem _ hd)
    unfold createAll
    rcases hcu : create_or_update_crd env d0 s with ⟨exn, s1⟩
    try rw [hcu]
    by_cases hin : (p0, n0, m0) ∈ s.world.store
    · obtain ⟨e1, _, e3⟩ := couc_ff_present_parts env d0 s p0 n0 m0 hf hk0 hin
      rw [hcu] at e1 e3
      have hexn : exn = none := e1
      subst hexn
      dsimp only
      obtain ⟨tr2, htr2, hprop⟩ := ih s1 htail
      refine ⟨[ApiOp.get p0 n0 m0] ++ tr2, ?_, ?_⟩
      · rw [htr2]
        have e3c : s1.calls = s.calls ++ [ApiOp.get p0 n0 m0] := e3
        rw [e3c, List.append_assoc]
      · intro p n m hmem
        rcases List.mem_append.1 hmem with h | h
        · exact absurd (List.mem_singleton.1 h) (by simp)
        · exact (hprop p n m h).trans (List.sublist_append_right _ _)
    · obtain ⟨e1, _, _, e4⟩ := couc_ff_absent_parts env d0 s p0 n0 m0 hf hk0 hin
      rw [hcu] at e1 e4
      have hexn : exn = none := e1
      subst hexn
      dsimp only
      obtain ⟨tr2, htr2, hprop⟩ := ih s1 htail
      refine ⟨[ApiOp.get p0 n0 m0, ApiOp.create p0 n0 m0] ++ tr2, ?_, ?_⟩
      · rw [htr2]
        have e4c : s1.calls = s.calls ++ [ApiOp.get p0 n0 m0, ApiOp.create p0 n0 m0] := e4
        rw [e4c, List.append_assoc]
      · intro p n m hmem
        rcases List.mem_append.1 hmem with h | h
        · rcases List.mem_cons.1 h with h1 | h1
          · cases h1
          · have h2 := List.mem_singleton.1 h1
            injection h2 with hq1 hq2 hq3
            subst hq1; subst hq2; subst hq3
            exact List.sublist_append_left _ _
        · exact (hprop p n m h).trans (List.sublist_append_right _ _)

/-- A successfully patched document addresses a Resource Store key: its kind
is registered and its metadata was filled in by the materializer. -/
theorem patchDoc_docKey (ns en alb : String) (t d1 : Doc)
    (h : patchDoc ns en alb t = .ok (some d1)) : (docKey d1).isSome := by
  obtain ⟨k, mn, mns, sp⟩ := t
  unfold patchDoc at h
  dsimp only at h
  split at h
  · exact absurd h (by simp)
  · rename_i hval hp
    split at h
    · cases sp with
      | dist cfg =>
        dsimp only at h
        cases hO : cfg.origins with
        | nil => rw [hO] at h; exact absurd h (by simp)
        | cons o os =>
          rw [hO] at h
          simp only [Except.ok.injEq, Option.some.injEq] at h
          subst h
          simp [docKey, hp]
      | other r => exact absurd h (by simp)
    · simp only [Except.ok.injEq, Option.some.injEq] at h
      subst h
      simp [docKey, hp]

/-- Every document of a successful materialization addresses a store key. -/
theorem mat_docKey (ns en alb : String) (tmpl docs : List Doc)
    (hm : load_and_patch_template ns en alb tmpl = .ok docs) :
    ∀ d ∈ docs, (docKey d).isSome := by
  induction tmpl generalizing docs with
  | nil =>
    simp only [load_and_patch_template, Except.ok.injEq] at hm
    subst hm
    intro d hd
    cases hd
  | cons t ts ih =>
    unfold load_and_patch_template at hm
    rcases hp : patchDoc ns en alb t with e | r
    · rw [hp] at hm
      simp at hm
    · rw [hp] at hm
      dsimp only at hm
      rcases hl : load_and_patch_template ns en alb ts with e2 | rest
      · rw [hl] at hm
        cases r <;> simp at hm
      · rw [hl] at hm
        dsimp only at hm
        cases r with
        | none =>
          simp only [Except.ok.injEq] at hm
          subst hm
          exact ih rest hl
        | some d1 =>
          simp only [Except.ok.injEq] at hm
          subst hm
          intro d hd
          rcases List.mem_cons.1 hd with h | h
          · rw [h]
            exact patchDoc_docKey ns en alb t d1 hp
          · exact ih rest hl d h

/-- C6: running the per-resource check-then-create pass of the Enabled path
(`create_or_update_crd` over the materialized documents; its call sites in
`reconcile_ingress` are the disabled ones the spec documents) twice in
succession with unchanged inputs and no faults yields the same store as once:
the second pass issues no create, every existence check of the second pass
targets a key that is present after the first pass, and in the first pass
every create is immediately preceded by the existence check of the same
resource (the two-call sequence embeds in order into the appended trace). -/
theorem c6_idempotent (env : Env) (ns en alb : String) (tmpl docs : List Doc) (s : S)
    (hf : noFaults env)
    (hm : load_and_patch_template ns en alb tmpl = .ok docs) :
    ((createAll env docs (createAll env docs s).2).2.world.store
        = (createAll env docs s).2.world.store) ∧
    (∀ op ∈ (createAll env docs (createAll env docs s).2).2.calls.drop
        (createAll env docs s).2.calls.length, isCreateOp op = false) ∧
    (∀ p n m, ApiOp.get p n m ∈ (createAll env docs (createAll env docs s).2).2.calls.drop
        (createAll env docs s).2.calls.length →
        (p, n, m) ∈ (createAll env docs s).2.world.store) ∧
    (∀ p n m, ApiOp.create p n m ∈ (createAll env docs s).2.calls.drop s.calls.length →
        List.Sublist [ApiOp.get p n m, ApiOp.create p n m]
          ((createAll env docs s).2.calls.drop s.calls.length)) := by
  have hgood := mat_docKey ns en alb tmpl docs hm
  obtain ⟨_, _, hkeys⟩ := createAll_ff_grow env docs s hf hgood
  obtain ⟨hw2, hc2⟩ := createAll_ff_present_run env docs (createAll env docs s).2 hf hgood
    (fun d hd k hdk => hkeys d hd k hdk)
  have hdrop : (createAll env docs (createAll env docs s).2).2.calls.drop
      (createAll env docs s).2.calls.length = docs.filterMap
      (fun d => (docKey d).map (fun k => ApiOp.get k.1 k.2.1 k.2.2)) := by
    rw [hc2]
    exact List.drop_left _ _
  refine ⟨by rw [hw2], ?_, ?_, ?_⟩
  · intro op hop
    rw [hdrop] at hop
    obtain ⟨d, _, hfd⟩ := List.mem_filterMap.1 hop
    obtain ⟨k, _, hk2⟩ := Option.map_eq_some'.1 hfd
    rw [← hk2]
    rfl
  · intro p n m hop
    rw [hdrop] at hop
    obtain ⟨d, hd, hfd⟩ := List.mem_filterMap.1 hop
    obtain ⟨k, hk1, hk2⟩ := Option.map_eq_some'.1 hfd
    rcases k with ⟨kp, kn, km⟩
    injection hk2 with j1 j2 j3
    subst j1; subst j2; subst j3
    exact hkeys d hd _ hk1
  · obtain ⟨tr, htr, hprop⟩ := createAll_ff_trace env docs s hf hgood
    rw [htr, List.drop_left]
    exact hprop

/-- C6 witness: a concrete fault-free double run over the materialization of
the one-Distribution template from the empty store. -/
theorem c6_idempotent_witness :
    (∀ i, envNone.faults i = none) ∧
    load_and_patch_template "ns" "app" "alb.example.com" tmplC = .ok [docCout] ∧
    (((createAll envNone [docCout] (createAll envNone [docCout] sEmpty).2).2.world.store
        = (createAll envNone [docCout] sEmpty).2.world.store) ∧
     (∀ op ∈ (createAll envNone [docCout] (createAll envNone [docCout] sEmpty).2).2.calls.drop
        (createAll envNone [docCout] sEmpty).2.calls.length, isCreateOp op = false) ∧
     (∀ p n m, ApiOp.get p n m ∈
          (createAll envNone [docCout] (createAll envNone [docCout] sEmpty).2).2.calls.drop
          (createAll envNone [docCout] sEmpty).2.calls.length →
        (p, n, m) ∈ (createAll envNone [docCout] sEmpty).2.world.store) ∧
     (∀ p n m, ApiOp.create p n m ∈ (createAll envNone [docCout] sEmpty).2.calls.drop
          sEmpty.calls.length →
        List.Sublist [ApiOp.get p n m, ApiOp.create p n m]
          ((createAll envNone [docCout] sEmpty).2.calls.drop sEmpty.calls.length))) :=
  ⟨fun _ => rfl, rfl,
   c6_idempotent envNone "ns" "app" "alb.example.com" tmplC [docCout] sEmpty (fun _ => rfl) rfl⟩

end CFCtrl
